import Mathlib

/-!
Shallow embedding of the `Array` container of `src/Array.py`.

The Python class is a ctypes wrapper over a C library (`libtest.so`) that is
not part of the repository: the Python side contributes the typecode dispatch,
the index check (`__index_error_handler`), the Long range check
(`__overflow_error_handler`) and the translation of C result codes into
exceptions, while the storage effects of the C functions are modelled from the
spec where marked.  Python exceptions are embedded as `Except` errors: a
raised exception produces no new state, which encodes the check-then-act
guarantee that a failed operation leaves the container untouched.

Numeric notes: Python ints are unbounded, so long payloads are `Int`;
`c_double` payloads are modelled as `Rat`, exact for every value the claims
use (integers well below 2^53).
-/

deriving instance DecidableEq for Except

namespace AlgoStruct

/-- The container's typecode, fixed at creation: `"i"` (long), `"d"` (double)
or the unfinished `"a"` (any) variant. -/
inductive Typecode where
  | tcI
  | tcD
  | tcA
deriving DecidableEq, Repr

/-- A stored element: the C `Element` tagged value, a kind discriminator with
the matching payload. -/
inductive Val where
  | VLong (n : Int)
  | VDouble (q : Rat)
deriving DecidableEq, Repr

/-- A Python value passed into or returned from the wrapper: an int or a float. -/
inductive PyVal where
  | pint (n : Int)
  | pfloat (q : Rat)
deriving DecidableEq, Repr

/-- The Python exceptions the wrapper can raise.  `attributeError` models the
`result.resultCode` access on `None` that `pop` performs for typecode `"a"`. -/
inductive ArrError where
  | indexError
  | overflowError
  | typeError
  | valueError
  | attributeError
deriving DecidableEq, Repr

/-- Abstract state of one Python `Array` object: its typecode and the logical
contents of the C buffer's occupied slots `[0, used)`. -/
structure ArrayState where
  typecode : Typecode
  elems : List Val
deriving DecidableEq, Repr

/-- The numeric value of a Python int or float; Python comparisons between the
two are numeric, so both map into `Rat`. -/
def PyVal.toRat : PyVal → Rat
  | .pint n => (n : Rat)
  | .pfloat q => q

/-- Python `==`/`!=` between numbers compares numerically across int/float. -/
def pyEq (x y : PyVal) : Bool := decide (x.toRat = y.toRat)

/-- A stored element as `__getitem__` returns it: a long comes back as a
Python int, a double as a Python float. -/
def valToPy : Val → PyVal
  | .VLong n => .pint n
  | .VDouble q => .pfloat q

/-- `Array.__overflow_error_handler` (src/Array.py:416-429): raises
OverflowError exactly when the value is strictly greater than 2147483647;
no lower bound is checked. -/
def overflowErrorHandler (arg : PyVal) : Except ArrError Unit :=
  match arg with
  | .pint n => if 2147483647 < n then .error .overflowError else .ok ()
  | .pfloat q => if 2147483647 < q then .error .overflowError else .ok ()

/-- `Array.__index_error_handler` (src/Array.py:268-284): IndexError when the
container is empty or `pos` falls outside `[-length, length)`. -/
def indexErrorHandler (a : ArrayState) (pos : Int) : Except ArrError Unit :=
  if a.elems.length = 0 then .error .indexError
  else if pos < -(a.elems.length : Int) ∨ (a.elems.length : Int) ≤ pos then
    .error .indexError
  else .ok ()

/-- Modelled from the spec: the missing C side's index normalization
(§4.2 `checkIndex`), which maps a negative position to `length + pos`. -/
def normIndex (len : Nat) (pos : Int) : Nat :=
  (if pos < 0 then (len : Int) + pos else pos).toNat

/-- `Array.__getitem__` (src/Array.py:141-166): validates the index, then
reads the element through the C getters `returnType` / `returnLong` /
`returnDouble`, modelled from the spec as reading the slot at the normalized
index.  An out-of-range slot read (unreachable once the index check passed)
corresponds to the source's final `raise ValueError` branch. -/
def getitem (a : ArrayState) (pos : Int) : Except ArrError PyVal :=
  match indexErrorHandler a pos with
  | .error e => .error e
  | .ok _ =>
    match a.elems.get? (normIndex a.elems.length pos) with
    | some v => .ok (valToPy v)
    | none => .error .valueError

/-- `Array.__setitem__` (src/Array.py:168-185): index check, then the Long
range check unconditionally (before the typecode dispatch), then the C
`insertLongToPos` / `insertDoubleToPos`, modelled from the spec's `setAt` as
overwriting the slot at the normalized index.  A float on an `"i"` container
would fail `c_long` marshaling, modelled as a TypeError; on typecode `"a"`
neither branch matches and the container is unchanged. -/
def setitem (a : ArrayState) (key : Int) (value : PyVal) : Except ArrError ArrayState :=
  match indexErrorHandler a key with
  | .error e => .error e
  | .ok _ =>
    match overflowErrorHandler value with
    | .error e => .error e
    | .ok _ =>
      match a.typecode, value with
      | .tcI, .pint n =>
        .ok { a with elems := a.elems.set (normIndex a.elems.length key) (.VLong n) }
      | .tcI, .pfloat _ => .error .typeError
      | .tcD, v =>
        .ok { a with elems := a.elems.set (normIndex a.elems.length key) (.VDouble v.toRat) }
      | .tcA, _ => .ok a

/-- `Array.__insert_long` (src/Array.py:397-406): the Long range check, then
the C `insertLong`, modelled from the spec's `append` as writing at index
`length`. -/
def insertLongArr (a : ArrayState) (n : Int) : Except ArrError ArrayState :=
  match overflowErrorHandler (.pint n) with
  | .error e => .error e
  | .ok _ => .ok { a with elems := a.elems ++ [.VLong n] }

/-- `Array.__insert_double` (src/Array.py:387-395): no range check; the C
`insertDouble`, modelled from the spec's `append`. -/
def insertDoubleArr (a : ArrayState) (q : Rat) : Except ArrError ArrayState :=
  .ok { a with elems := a.elems ++ [.VDouble q] }

/-- `Array.append` (src/Array.py:313-347): dispatch on the typecode; an `"i"`
container accepts only ints, a `"d"` container coerces ints and floats to
double.  The list-flattening branch of typecode `"a"` is outside this
embedding (`PyVal` has no list). -/
def append (a : ArrayState) (arg : PyVal) : Except ArrError ArrayState :=
  match a.typecode, arg with
  | .tcA, .pint n => insertLongArr a n
  | .tcA, .pfloat q => insertDoubleArr a q
  | .tcI, .pint n => insertLongArr a n
  | .tcI, .pfloat _ => .error .typeError
  | .tcD, v => insertDoubleArr a v.toRat

/-- Removal of the element at one index, as the copy loop of the missing C
pop.  Modelled from the spec (§4.3 `removeAt`): a new buffer holding every
element but the one at the index, relative order preserved. -/
def removeNth : List Val → Nat → List Val
  | [], _ => []
  | _ :: xs, 0 => xs
  | x :: xs, n + 1 => x :: removeNth xs n

/-- `Array.pop` (src/Array.py:212-241), with the C `popLong` / `popDouble`
modelled from the spec (§4.3 `removeAt` together with §4.2 `checkIndex`):
failure result code for an empty container or a position outside
`[-length, length)`, in which case the wrapper raises IndexError and the
original container is untouched; otherwise the element at the normalized
position is returned and the wrapper installs the buffer with it removed.
On typecode `"a"` the Python leaves `result = None` and the
`result.resultCode` access raises AttributeError. -/
def popArr (a : ArrayState) (pos : Int) : Except ArrError (PyVal × ArrayState) :=
  match a.typecode with
  | .tcA => .error .attributeError
  | _ =>
    if a.elems.length = 0 ∨ pos < -(a.elems.length : Int) ∨ (a.elems.length : Int) ≤ pos then
      .error .indexError
    else
      .ok (valToPy (a.elems.getD (normIndex a.elems.length pos) (.VLong 0)),
        { a with elems := removeNth a.elems (normIndex a.elems.length pos) })

/-- First-occurrence removal, as the scan of the missing C `removeLong` /
`removeDouble`.  Modelled from the spec (§4.3 `removeByValue`): linear scan in
current order, the first element equal to the value is removed; `none` models
the `-1` result code. -/
def removeFirst : List Val → Val → Option (List Val)
  | [], _ => none
  | x :: xs, v => if x = v then some xs else (removeFirst xs v).map (fun l => x :: l)

/-- `Array.remove` (src/Array.py:286-311): runs the C removal into a fresh
buffer; on result code `-1` it raises ValueError before the old buffer is
replaced, so the container is unmodified.  On typecode `"a"` no C call runs,
the code stays `0` and the container is replaced by the fresh empty buffer. -/
def removeArr (a : ArrayState) (value : PyVal) : Except ArrError ArrayState :=
  match a.typecode, value with
  | .tcA, _ => .ok { a with elems := [] }
  | .tcI, .pint n =>
    (match removeFirst a.elems (.VLong n) with
     | none => .error .valueError
     | some l => .ok { a with elems := l })
  | .tcI, .pfloat _ => .error .typeError
  | .tcD, v =>
    (match removeFirst a.elems (.VDouble v.toRat) with
     | none => .error .valueError
     | some l => .ok { a with elems := l })

/-- Insertion at one position, as the copy loop of the missing C
`insertLongAtPos` / `insertDoubleAtPos`.  Modelled from the spec
(§4.3 `insertAt`, defined for `0 ≤ pos ≤ length`): elements below the
position kept, the value written, the remaining elements shifted up by one. -/
def spliceAt : List Val → Val → Nat → List Val
  | l, v, 0 => v :: l
  | [], v, _ + 1 => [v]
  | x :: xs, v, n + 1 => x :: spliceAt xs v n

/-- `Array.insert` (src/Array.py:349-371): calls the C insertion directly and
installs the new buffer.  Note: unlike `append` and `__setitem__`, no
overflow check (and no index check) is performed here.  A float on an `"i"`
container fails `c_long` marshaling (modelled TypeError); on typecode `"a"`
neither branch matches and the container is replaced by the fresh empty
buffer. -/
def insertArr (a : ArrayState) (pos : Int) (arg : PyVal) : Except ArrError ArrayState :=
  match a.typecode, arg with
  | .tcA, _ => .ok { a with elems := [] }
  | .tcI, .pint n => .ok { a with elems := spliceAt a.elems (.VLong n) pos.toNat }
  | .tcI, .pfloat _ => .error .typeError
  | .tcD, v => .ok { a with elems := spliceAt a.elems (.VDouble v.toRat) pos.toNat }

/-- The C union's payload read as a long; an `"i"` container built through the
wrapper holds only long elements, so the double case is unreachable there. -/
def longPayload : Val → Int
  | .VLong n => n
  | .VDouble _ => 0

/-- The C union's payload read as a double. -/
def dblPayload : Val → Rat
  | .VLong _ => 0
  | .VDouble q => q

/-- Modelled from the spec: the missing C binary search (§4.4).  Standard
halving of the interval `[low, high)`: midpoint index on equality, lower half
when the target is smaller, upper half when greater, `-1` once the interval is
empty.  Fuel bounds the recursion; `length + 1` steps always suffice. -/
def bsearchGo {α : Type} [LinearOrder α] (l : List α) (d t : α) :
    Nat → Nat → Nat → Int
  | 0, _, _ => -1
  | fuel + 1, low, high =>
    if high ≤ low then -1
    else
      let mid := (low + high) / 2
      let v := l.getD mid d
      if t = v then (mid : Int)
      else if t < v then bsearchGo l d t fuel low mid
      else bsearchGo l d t fuel (mid + 1) high

/-- Modelled from the spec: the missing C `binarySearchLong`. -/
def binarySearchLong (l : List Int) (t : Int) : Int :=
  bsearchGo l 0 t (l.length + 1) 0 l.length

/-- Modelled from the spec: the missing C `binarySearchDouble`. -/
def binarySearchDouble (l : List Rat) (t : Rat) : Int :=
  bsearchGo l 0 t (l.length + 1) 0 l.length

/-- The wrapper's sentinel translation in `Array.search`: position `-1`
becomes ValueError, anything else is returned. -/
def surfaceSearch (pos : Int) : Except ArrError Int :=
  if pos = -1 then .error .valueError else .ok pos

/-- `Array.search` (src/Array.py:243-266): binary search through the C
functions (the container is assumed pre-sorted), then the `-1` sentinel is
surfaced as ValueError.  On typecode `"a"` no C call runs and `pos` stays
`-1`, hence ValueError; a float on an `"i"` container fails `c_long`
marshaling (modelled TypeError). -/
def searchArr (a : ArrayState) (arg : PyVal) : Except ArrError Int :=
  match a.typecode, arg with
  | .tcI, .pint n => surfaceSearch (binarySearchLong (a.elems.map longPayload) n)
  | .tcI, .pfloat _ => .error .typeError
  | .tcD, v => surfaceSearch (binarySearchDouble (a.elems.map dblPayload) v.toRat)
  | .tcA, _ => .error .valueError

/-- The element loop of `Array.__eq__` (src/Array.py:196-210): the index
ranges over the container's own length only; `none` models the IndexError
Python raises reading `other[i]` when `other` is shorter than the container. -/
def arrEqGo : List PyVal → List PyVal → Option Bool
  | [], _ => some true
  | _ :: _, [] => none
  | x :: xs, y :: ys => if pyEq x y then arrEqGo xs ys else some false

/-- `Array.__eq__`: each `self[i]` is read through `__getitem__`, so the
container's elements enter the comparison as Python values. -/
def arrEq (a : ArrayState) (other : List PyVal) : Option Bool :=
  arrEqGo (a.elems.map valToPy) other

/-- One element within the Long upper bound (doubles are unconstrained). -/
def valBound : Val → Prop
  | .VLong n => n ≤ 2147483647
  | .VDouble _ => True

instance : DecidablePred valBound := fun v =>
  match v with
  | .VLong n => inferInstanceAs (Decidable (n ≤ 2147483647))
  | .VDouble _ => .isTrue trivial

/-- Every stored long payload is within the Long upper bound 2147483647. -/
def longBoundOK (l : List Val) : Prop := ∀ v ∈ l, valBound v

instance (l : List Val) : Decidable (longBoundOK l) :=
  List.decidableBAll valBound l

/-! ### Helper lemmas -/

/-- Removing the element at index `n` keeps the prefix below `n` and the
suffix above it, in order. -/
theorem removeNth_eq_take_drop (l : List Val) (n : Nat) :
    removeNth l n = l.take n ++ l.drop (n + 1) := by
  induction l generalizing n with
  | nil => simp [removeNth]
  | cons x xs ih =>
    cases n with
    | zero => simp [removeNth]
    | succ n => simp [removeNth, ih]

/-- For a position within the container, the insertion loop keeps the prefix,
writes the value, and shifts the suffix up by one. -/
theorem spliceAt_eq_take_drop (l : List Val) (v : Val) (n : Nat) (h : n ≤ l.length) :
    spliceAt l v n = l.take n ++ v :: l.drop n := by
  induction l generalizing n with
  | nil =>
    have hn : n = 0 := Nat.le_zero.mp (by simpa using h)
    subst hn
    simp [spliceAt]
  | cons x xs ih =>
    cases n with
    | zero => simp [spliceAt]
    | succ n => simp [spliceAt, ih n (by simpa using h)]

/-- Inserting at position `length` appends. -/
theorem spliceAt_at_length (l : List Val) (v : Val) :
    spliceAt l v l.length = l ++ [v] := by
  rw [spliceAt_eq_take_drop l v l.length le_rfl]
  simp

/-- The removal scan reports "not found" when no element equals the value. -/
theorem removeFirst_of_not_mem (l : List Val) (v : Val) (h : v ∉ l) :
    removeFirst l v = none := by
  induction l with
  | nil => rfl
  | cons x xs ih =>
    have hx : ¬x = v := fun e => h (e ▸ List.mem_cons_self x xs)
    have hxs : v ∉ xs := fun e => h (List.mem_cons_of_mem x e)
    simp [removeFirst, hx, ih hxs]

/-- The removal scan removes exactly the first occurrence, keeping every other
element in order. -/
theorem removeFirst_first_occurrence (l1 l2 : List Val) (v : Val) (h : v ∉ l1) :
    removeFirst (l1 ++ v :: l2) v = some (l1 ++ l2) := by
  induction l1 with
  | nil => simp [removeFirst]
  | cons x xs ih =>
    have hx : ¬x = v := fun e => h (e ▸ List.mem_cons_self x xs)
    have hxs : v ∉ xs := fun e => h (List.mem_cons_of_mem x e)
    simp [removeFirst, hx, ih hxs]

/-- The `__eq__` loop answers `True` whenever the second sequence agrees with
the first at every index of the first. -/
theorem arrEqGo_eq_true (xs ys : List PyVal) (hl : xs.length ≤ ys.length)
    (hag : ∀ i, i < xs.length → pyEq (xs.getD i (.pint 0)) (ys.getD i (.pint 0)) = true) :
    arrEqGo xs ys = some true := by
  induction xs generalizing ys with
  | nil => rfl
  | cons x xs ih =>
    cases ys with
    | nil => simp at hl
    | cons y ys =>
      have h0 : pyEq x y = true := by simpa using hag 0 (Nat.succ_pos _)
      have ht : arrEqGo xs ys = some true := by
        apply ih
        · simpa using hl
        · intro i hi
          simpa using hag (i + 1) (Nat.succ_lt_succ hi)
      simp [arrEqGo, h0, ht]

/-- A successful `__insert_long` passed the range check, so the bound on
stored longs is preserved. -/
theorem insertLongArr_bound (a : ArrayState) (n : Int) (s2 : ArrayState)
    (h : longBoundOK a.elems) (he : insertLongArr a n = .ok s2) :
    longBoundOK s2.elems := by
  by_cases hb : 2147483647 < n
  · simp [insertLongArr, overflowErrorHandler, hb] at he
  · simp [insertLongArr, overflowErrorHandler, hb] at he
    subst he
    intro v hv
    rcases List.mem_append.mp hv with hv | hv
    · exact h v hv
    · have : v = Val.VLong n := by simpa using hv
      subst this
      show n ≤ 2147483647
      omega

/-- `__insert_double` stores a double, which the bound does not constrain. -/
theorem insertDoubleArr_bound (a : ArrayState) (q : Rat) (s2 : ArrayState)
    (h : longBoundOK a.elems) (he : insertDoubleArr a q = .ok s2) :
    longBoundOK s2.elems := by
  have hs : s2 = { a with elems := a.elems ++ [.VDouble q] } :=
    (Except.ok.inj he).symm
  subst hs
  intro v hv
  rcases List.mem_append.mp hv with hv | hv
  · exact h v hv
  · have : v = Val.VDouble q := by simpa using hv
    subst this
    trivial

/-! ### Claim theorems -/

/-- Claim C1, counterexample: on a Long (`"i"`) container, `insert`
(`insertAt`) writes the integer 2147483648 — strictly above the Long bound —
without raising OverflowError, so the value enters storage: no range check is
performed on the insert path, refuting the claim that every integer-writing
operation checks. -/
theorem insert_bypasses_long_range_check :
    insertArr ⟨.tcI, [.VLong 0]⟩ 0 (.pint 2147483648)
      = .ok ⟨.tcI, [.VLong 2147483648, .VLong 0]⟩
  ∧ ¬(2147483648 : Int) ≤ 2147483647 := by
  exact ⟨rfl, by decide⟩

/-- Claim C1 (amended): `append` and `setAt` (`__setitem__`) perform the Long
range check and raise OverflowError before any storage effect, so sequences
of those operations keep every stored long within 2147483647; `insertAt`
performs no such check and is excluded from the invariant. -/
theorem append_setitem_preserve_long_bound (a : ArrayState) (h : longBoundOK a.elems) :
    (∀ v s2, append a v = .ok s2 → longBoundOK s2.elems)
  ∧ (∀ k v s2, setitem a k v = .ok s2 → longBoundOK s2.elems) := by
  constructor
  · intro v s2 hap
    obtain ⟨tc, l⟩ := a
    cases tc with
    | tcI =>
      cases v with
      | pint n => exact insertLongArr_bound _ n s2 h hap
      | pfloat q => simp [append] at hap
    | tcD => exact insertDoubleArr_bound _ _ s2 h hap
    | tcA =>
      cases v with
      | pint n => exact insertLongArr_bound _ n s2 h hap
      | pfloat q => exact insertDoubleArr_bound _ _ s2 h hap
  · intro k v s2 hst
    obtain ⟨tc, l⟩ := a
    cases tc with
    | tcI =>
      cases v with
      | pint n =>
        unfold setitem at hst
        cases hie : indexErrorHandler ⟨.tcI, l⟩ k <;> rw [hie] at hst
        · simp at hst
        · by_cases hb : 2147483647 < n
          · simp [overflowErrorHandler, hb] at hst
          · simp [overflowErrorHandler, hb] at hst
            subst hst
            intro w hw
            rcases List.mem_or_eq_of_mem_set hw with hw | hw
            · exact h w hw
            · subst hw
              show n ≤ 2147483647
              omega
      | pfloat q =>
        unfold setitem at hst
        cases hie : indexErrorHandler ⟨.tcI, l⟩ k <;> rw [hie] at hst
        · simp at hst
        · by_cases hb : 2147483647 < q <;> simp [overflowErrorHandler, hb] at hst
    | tcD =>
      unfold setitem at hst
      cases hie : indexErrorHandler ⟨.tcD, l⟩ k <;> rw [hie] at hst
      · simp at hst
      · cases hof : overflowErrorHandler v <;> rw [hof] at hst
        · simp at hst
        · simp at hst
          subst hst
          intro w hw
          rcases List.mem_or_eq_of_mem_set hw with hw | hw
          · exact h w hw
          · subst hw
            trivial
    | tcA =>
      unfold setitem at hst
      cases hie : indexErrorHandler ⟨.tcA, l⟩ k <;> rw [hie] at hst
      · simp at hst
      · cases hof : overflowErrorHandler v <;> rw [hof] at hst
        · simp at hst
        · simp at hst
          subst hst
          exact h

/-- Witness for the amended claim C1 at a concrete container and append. -/
theorem append_setitem_preserve_long_bound_witness :
    longBoundOK [Val.VLong 2, Val.VLong 5] :=
  (append_setitem_preserve_long_bound ⟨.tcI, [.VLong 2]⟩ (by decide)).1 (.pint 5)
    ⟨.tcI, [.VLong 2, .VLong 5]⟩ rfl

/-- Claim C2: the Long range check rejects exactly the values strictly above
2147483647 and checks no lower bound.  On a Long container, appending
2147483647 succeeds; appending 2147483648 raises OverflowError and, since the
check runs before the C write, produces no storage effect (the embedding
yields no new state); and the check accepts every negative integer. -/
theorem overflow_upper_bound_only (a : ArrayState) (h : a.typecode = .tcI) :
    append a (.pint 2147483647) = .ok { a with elems := a.elems ++ [.VLong 2147483647] }
  ∧ append a (.pint 2147483648) = .error .overflowError
  ∧ (∀ n : Int, n < 0 → overflowErrorHandler (.pint n) = .ok ()) := by
  obtain ⟨tc, l⟩ := a
  have h2 : tc = .tcI := h
  subst h2
  refine ⟨?_, ?_, ?_⟩
  · show insertLongArr ⟨.tcI, l⟩ 2147483647 = _
    simp only [insertLongArr, overflowErrorHandler]
    rw [if_neg (by norm_num)]
  · show insertLongArr ⟨.tcI, l⟩ 2147483648 = _
    simp only [insertLongArr, overflowErrorHandler]
    rw [if_pos (by norm_num)]
  · intro n hn
    simp only [overflowErrorHandler]
    rw [if_neg (by omega)]

/-- Witness for claim C2 at the empty Long container. -/
theorem overflow_upper_bound_only_witness :
    append ⟨.tcI, []⟩ (.pint 2147483647) = .ok ⟨.tcI, [.VLong 2147483647]⟩ :=
  (overflow_upper_bound_only ⟨.tcI, []⟩ rfl).1

/-- Claim C3: for every Long or Double container, `pop` (`removeAt`) raises
IndexError when the position is out of bounds — the failing call produces no
new state, so the original container keeps its length and contents — and for
an in-bounds position it returns the value of the element at the normalized
position together with the container with exactly that element removed, every
remaining element in its original relative order. -/
theorem pop_bounds_and_removal (a : ArrayState) (pos : Int) (h : a.typecode ≠ .tcA) :
    ((a.elems.length = 0 ∨ pos < -(a.elems.length : Int) ∨ (a.elems.length : Int) ≤ pos) →
        popArr a pos = .error .indexError)
  ∧ (¬(a.elems.length = 0 ∨ pos < -(a.elems.length : Int) ∨ (a.elems.length : Int) ≤ pos) →
        popArr a pos =
          .ok (valToPy (a.elems.getD (normIndex a.elems.length pos) (.VLong 0)),
            { a with elems := a.elems.take (normIndex a.elems.length pos)
                ++ a.elems.drop (normIndex a.elems.length pos + 1) })) := by
  have hred : popArr a pos =
      if a.elems.length = 0 ∨ pos < -(a.elems.length : Int) ∨ (a.elems.length : Int) ≤ pos then
        .error .indexError
      else
        .ok (valToPy (a.elems.getD (normIndex a.elems.length pos) (.VLong 0)),
          { a with elems := removeNth a.elems (normIndex a.elems.length pos) }) := by
    obtain ⟨tc, l⟩ := a
    cases tc with
    | tcA => exact absurd rfl h
    | tcI => rfl
    | tcD => rfl
  constructor
  · intro hc
    rw [hred, if_pos hc]
  · intro hc
    rw [hred, if_neg hc, removeNth_eq_take_drop]

/-- Witness for claim C3: popping position 0 of `[7, 8]`. -/
theorem pop_bounds_and_removal_witness :
    popArr ⟨.tcI, [.VLong 7, .VLong 8]⟩ 0 = .ok (.pint 7, ⟨.tcI, [.VLong 8]⟩) :=
  (pop_bounds_and_removal ⟨.tcI, [.VLong 7, .VLong 8]⟩ 0 (by decide)).2 (by decide)

/-- Claim C4: `remove` (`removeByValue`) on a Long container removes the first
occurrence of the value in current order, keeping every other element in its
original relative order; when no element equals the value it raises ValueError
(the failing call produces no new state, leaving the container unmodified).
In particular, on `[10, 20, 30]` removing 20 yields `[10, 30]` and removing 99
raises ValueError. -/
theorem remove_first_occurrence_spec :
    (∀ (l1 l2 : List Val) (n : Int), Val.VLong n ∉ l1 →
        removeArr ⟨.tcI, l1 ++ Val.VLong n :: l2⟩ (.pint n) = .ok ⟨.tcI, l1 ++ l2⟩)
  ∧ (∀ (a : ArrayState) (n : Int), a.typecode = .tcI → Val.VLong n ∉ a.elems →
        removeArr a (.pint n) = .error .valueError)
  ∧ removeArr ⟨.tcI, [.VLong 10, .VLong 20, .VLong 30]⟩ (.pint 20)
      = .ok ⟨.tcI, [.VLong 10, .VLong 30]⟩
  ∧ removeArr ⟨.tcI, [.VLong 10, .VLong 20, .VLong 30]⟩ (.pint 99) = .error .valueError := by
  have hred : ∀ (l : List Val) (n : Int),
      removeArr ⟨.tcI, l⟩ (.pint n)
        = match removeFirst l (.VLong n) with
          | none => .error .valueError
          | some l2 => .ok ⟨.tcI, l2⟩ := fun _ _ => rfl
  refine ⟨?_, ?_, by decide, by decide⟩
  · intro l1 l2 n hn
    rw [hred, removeFirst_first_occurrence l1 l2 _ hn]
  · intro a n htc hn
    obtain ⟨tc, l⟩ := a
    have h2 : tc = .tcI := htc
    subst h2
    rw [hred, removeFirst_of_not_mem l _ hn]

/-- Claim C5: `__getitem__` raises IndexError exactly when the container is
empty or the signed position lies outside `[-length, length)`; the check runs
before any slot access, so on an empty container every read fails regardless
of the index. -/
theorem getitem_index_error_iff (a : ArrayState) (pos : Int) :
    getitem a pos = .error .indexError ↔
      (a.elems.length = 0 ∨ pos < -(a.elems.length : Int) ∨ (a.elems.length : Int) ≤ pos) := by
  constructor
  · intro hg
    by_contra hcond
    push_neg at hcond
    obtain ⟨hne, hlo, hhi⟩ := hcond
    have hok : indexErrorHandler a pos = .ok () := by
      unfold indexErrorHandler
      rw [if_neg hne, if_neg (by omega)]
    unfold getitem at hg
    rw [hok] at hg
    cases hget : a.elems.get? (normIndex a.elems.length pos) <;>
      rw [hget] at hg <;> simp at hg
  · intro hcond
    have herr : indexErrorHandler a pos = .error .indexError := by
      unfold indexErrorHandler
      by_cases h0 : a.elems.length = 0
      · rw [if_pos h0]
      · rw [if_neg h0, if_pos (by tauto)]
    unfold getitem
    rw [herr]

/-- Claim C6: negative positions index from the end: for a position in
`[-length, 0)`, `getAt` agrees with `getAt` at `length + pos`; with
`pos = -1` this is the last element. -/
theorem getitem_negative_index (a : ArrayState) (pos : Int)
    (h1 : -(a.elems.length : Int) ≤ pos) (h2 : pos < 0) :
    getitem a pos = getitem a ((a.elems.length : Int) + pos) := by
  have h0 : ¬a.elems.length = 0 := by omega
  have c1 : ¬(pos < -(a.elems.length : Int) ∨ (a.elems.length : Int) ≤ pos) := by omega
  have c2 : ¬((a.elems.length : Int) + pos < -(a.elems.length : Int)
      ∨ (a.elems.length : Int) ≤ (a.elems.length : Int) + pos) := by omega
  have hnorm : normIndex a.elems.length pos
      = normIndex a.elems.length ((a.elems.length : Int) + pos) := by
    unfold normIndex
    rw [if_pos h2, if_neg (by omega)]
  unfold getitem indexErrorHandler
  rw [if_neg h0, if_neg c1, if_neg h0, if_neg c2, hnorm]

/-- Witness for claim C6: on `[4, 6]`, position `-1` reads the last element. -/
theorem getitem_negative_index_witness :
    getitem ⟨.tcI, [.VLong 4, .VLong 6]⟩ (-1)
      = getitem ⟨.tcI, [.VLong 4, .VLong 6]⟩ (([Val.VLong 4, Val.VLong 6].length : Int) + -1) :=
  getitem_negative_index ⟨.tcI, [.VLong 4, .VLong 6]⟩ (-1) (by decide) (by decide)

/-- Claim C7: on a Long container holding the sorted `[1, 3, 5, 7, 9]`, binary
search finds 5 at index 2, 1 at index 0 and 9 at index 4; for the absent 4 the
search yields the `-1` NotFound sentinel, which the wrapper surfaces to the
caller (as ValueError). -/
theorem binary_search_sorted_examples :
    searchArr ⟨.tcI, [.VLong 1, .VLong 3, .VLong 5, .VLong 7, .VLong 9]⟩ (.pint 5) = .ok 2
  ∧ searchArr ⟨.tcI, [.VLong 1, .VLong 3, .VLong 5, .VLong 7, .VLong 9]⟩ (.pint 1) = .ok 0
  ∧ searchArr ⟨.tcI, [.VLong 1, .VLong 3, .VLong 5, .VLong 7, .VLong 9]⟩ (.pint 9) = .ok 4
  ∧ binarySearchLong [1, 3, 5, 7, 9] 4 = -1
  ∧ searchArr ⟨.tcI, [.VLong 1, .VLong 3, .VLong 5, .VLong 7, .VLong 9]⟩ (.pint 4)
      = .error .valueError := by
  decide

/-- Claim C8: on a Long container, `insert` (`insertAt`) at a position up to
the length produces the original sequence with the value spliced in at that
position — the prefix kept in order, the suffix kept in order shifted up by
one — and inserting at exactly the length appends. -/
theorem insert_splice_spec (a : ArrayState) (pos : Nat) (n : Int)
    (h : a.typecode = .tcI) (hpos : pos ≤ a.elems.length) :
    insertArr a (pos : Int) (.pint n)
      = .ok { a with elems := a.elems.take pos ++ Val.VLong n :: a.elems.drop pos }
  ∧ (pos = a.elems.length →
      insertArr a (pos : Int) (.pint n) = .ok { a with elems := a.elems ++ [.VLong n] }) := by
  obtain ⟨tc, l⟩ := a
  have h2 : tc = .tcI := h
  subst h2
  have hred : insertArr ⟨.tcI, l⟩ (pos : Int) (.pint n)
      = .ok ⟨.tcI, spliceAt l (.VLong n) (pos : Int).toNat⟩ := rfl
  have htn : ((pos : Int)).toNat = pos := Int.toNat_natCast pos
  constructor
  · rw [hred, htn, spliceAt_eq_take_drop l _ pos hpos]
  · intro hp
    subst hp
    rw [hred, htn, spliceAt_at_length]

/-- Witness for claim C8: inserting 2 at position 1 of `[1, 3]`. -/
theorem insert_splice_spec_witness :
    insertArr ⟨.tcI, [.VLong 1, .VLong 3]⟩ ((1 : Nat) : Int) (.pint 2)
      = .ok ⟨.tcI, [.VLong 1, .VLong 2, .VLong 3]⟩ :=
  (insert_splice_spec ⟨.tcI, [.VLong 1, .VLong 3]⟩ 1 2 rfl (by decide)).1

/-- Claim C9: `__setitem__` runs the Long range check before the typecode
dispatch, so even on a Double (`"d"`) container a set at a valid index with an
integer above 2147483647 raises OverflowError (producing no new state, the
container unchanged), while `append` on the same container accepts that
integer and stores it as a double. -/
theorem setitem_overflow_on_double (a : ArrayState) (k : Int) (n : Int)
    (hd : a.typecode = .tcD)
    (hk : ¬(a.elems.length = 0 ∨ k < -(a.elems.length : Int) ∨ (a.elems.length : Int) ≤ k))
    (hn : 2147483647 < n) :
    setitem a k (.pint n) = .error .overflowError
  ∧ append a (.pint n) = .ok { a with elems := a.elems ++ [.VDouble (n : Rat)] } := by
  obtain ⟨tc, l⟩ := a
  have h2 : tc = .tcD := hd
  subst h2
  push_neg at hk
  constructor
  · have hok : indexErrorHandler ⟨.tcD, l⟩ k = .ok () := by
      unfold indexErrorHandler
      rw [if_neg hk.1, if_neg (by omega)]
    unfold setitem
    rw [hok]
    simp [overflowErrorHandler, hn]
  · rfl

/-- Witness for claim C9 at a one-element Double container. -/
theorem setitem_overflow_on_double_witness :
    setitem ⟨.tcD, [.VDouble 1]⟩ 0 (.pint 2147483648) = .error .overflowError :=
  (setitem_overflow_on_double ⟨.tcD, [.VDouble 1]⟩ 0 2147483648 rfl (by decide) (by decide)).1

/-- Claim C10: `__eq__` compares only positions 0 through `len(self) - 1`: it
answers True whenever the other sequence agrees (under Python numeric
equality) with the container at every index below the container's own length,
the other sequence being allowed to be strictly longer; an empty container
compares equal to every sequence. -/
theorem eq_compares_own_prefix_only (a : ArrayState) (other : List PyVal)
    (hl : a.elems.length ≤ other.length)
    (hag : ∀ i, i < a.elems.length →
      pyEq ((a.elems.map valToPy).getD i (.pint 0)) (other.getD i (.pint 0)) = true) :
    arrEq a other = some true
  ∧ (∀ o2 : List PyVal, arrEq ⟨a.typecode, []⟩ o2 = some true) := by
  constructor
  · exact arrEqGo_eq_true (a.elems.map valToPy) other (by simpa using hl)
      (by simpa using hag)
  · intro o2
    rfl

/-- Witness for claim C10: `[1]` compares equal to the strictly longer
`[1, 2, 3.0]`. -/
theorem eq_compares_own_prefix_only_witness :
    arrEq ⟨.tcI, [.VLong 1]⟩ [.pint 1, .pint 2, .pfloat 3] = some true :=
  (eq_compares_own_prefix_only ⟨.tcI, [.VLong 1]⟩ [.pint 1, .pint 2, .pfloat 3]
    (by decide) (by decide)).1

end AlgoStruct
